import Mathlib

set_option maxHeartbeats 1000000
set_option maxRecDepth 4000

/-!
Shallow embedding of the star-battle-patterns pattern miner core:
the exact completion enumerator (src/solver/exactSolver), the window
board builder (src/miner/boardBuilder), the pattern verifier
(src/miner/patternVerifier) and the deduplicator (src/miner/deduplicator).
JavaScript arrays are modelled as Lean lists; an out-of-range indexed read,
which yields undefined in JavaScript, is modelled by List.get? returning
none.  The wall-clock timeout is modelled by a boolean oracle consulted on
a running counter of recursive solver calls, one consultation per call as
in the source.
-/

/-- Cell values, from the source enum CellState (Unknown = 0, Star = 1,
Empty = 2).  The spec calls Star Marked and Empty Unmarked. -/
inductive CellState where
  | Unknown
  | Star
  | Empty
deriving DecidableEq, Repr

/-- A constraint group (row, column or region): member cell indices and the
exact number of stars required.  The source stores the group identity in a
field named id, rowIndex or colIndex depending on the collection; a single
id field serves all three here. -/
structure BoardGroup where
  id : Nat
  cells : List Nat
  starsRequired : Nat
deriving DecidableEq, Repr

/-- The BoardState record of the source: effective grid size used for
neighbor math, per-line and per-region star counts, the flat cell-state
array, and the region, row and column groups. -/
structure BoardState where
  size : Nat
  starsPerLine : Nat
  starsPerRegion : Nat
  cellStates : List CellState
  regions : List BoardGroup
  rows : List BoardGroup
  cols : List BoardGroup
deriving DecidableEq, Repr

/-- Offsets (dr, dc) in the order the source's double loop over dr and dc
visits them, with (0, 0) skipped. -/
def neighborDeltas : List (Int × Int) :=
  [(-1, -1), (-1, 0), (-1, 1), (0, -1), (0, 1), (1, -1), (1, 0), (1, 1)]

/-- Source getNeighbors8: the 8-directional neighbors of cellId on a
size-by-size grid, clipped at the edges. -/
def getNeighbors8 (cellId size : Nat) : List (Nat × Nat) :=
  let row : Int := (cellId / size : Nat)
  let col : Int := (cellId % size : Nat)
  neighborDeltas.filterMap (fun d =>
    let r := row + d.1
    let c := col + d.2
    if 0 ≤ r ∧ r < (size : Int) ∧ 0 ≤ c ∧ c < (size : Int) then
      some (r.toNat, c.toNat)
    else none)

/-- Count of group cells whose state reads Star, as the source computes via
cells.filter(cellId => state.cellStates[cellId] === CellState.Star). -/
def countStars (cells : List CellState) (group : List Nat) : Nat :=
  (group.filter (fun cid => cells.get? cid == some CellState.Star)).length

/-- Count of group cells whose state reads Empty. -/
def countEmpties (cells : List CellState) (group : List Nat) : Nat :=
  (group.filter (fun cid => cells.get? cid == some CellState.Empty)).length

/-- Adjacency scan shared by isValidCompletion and isValidPartialState: some
cell below size*size holds a star and so does one of its 8-neighbors. -/
def hasAdjacentStars (cells : List CellState) (size : Nat) : Bool :=
  (List.range (size * size)).any (fun i =>
    cells.get? i == some CellState.Star &&
    (getNeighbors8 i size).any (fun p =>
      cells.get? (p.1 * size + p.2) == some CellState.Star))

/-- Source isValidCompletion: every row, column and region holds exactly its
quota of stars, and no two stars are 8-adjacent. -/
def isValidCompletion (state : BoardState) : Bool :=
  state.rows.all (fun g => countStars state.cellStates g.cells == g.starsRequired) &&
  state.cols.all (fun g => countStars state.cellStates g.cells == g.starsRequired) &&
  state.regions.all (fun g => countStars state.cellStates g.cells == g.starsRequired) &&
  !hasAdjacentStars state.cellStates state.size

/-- Per-group check of isValidPartialState: stars placed so far do not
exceed the quota, and stars plus remaining undecided cells can still reach
it.  The remaining count is group length minus stars minus empties, as in
the source. -/
def groupPartialOk (cells : List CellState) (g : BoardGroup) : Bool :=
  let starCount := countStars cells g.cells
  let emptyCount := countEmpties cells g.cells
  let remaining := g.cells.length - starCount - emptyCount
  decide (starCount ≤ g.starsRequired) && decide (g.starsRequired ≤ starCount + remaining)

/-- Source isValidPartialState: the pruning check applied before each
recursive descent. -/
def isValidPartialState (state : BoardState) : Bool :=
  state.rows.all (groupPartialOk state.cellStates) &&
  state.cols.all (groupPartialOk state.cellStates) &&
  state.regions.all (groupPartialOk state.cellStates) &&
  !hasAdjacentStars state.cellStates state.size

/-- Mutable search context of enumerateAllCompletions: the assignments
recorded so far (the information the per-cell cellResults sets are built
from), the completion counter, and the count of solve calls made (the
point at which the wall clock is read). -/
structure SearchAcc where
  completions : List (List CellState)
  count : Nat
  ticks : Nat
deriving DecidableEq, Repr

/-- Source solve: depth-first backtracking.  Each call first consults the
timeout oracle, then the completion cap; at a leaf (no Unknown cell below
size*size) a valid completion is recorded and counted; otherwise the first
Unknown cell is tried as Star then as Empty, each branch guarded by
isValidPartialState on its own copy of the cell array.  Fuel is structural
recursion bookkeeping only; enumerateSearch supplies more fuel than the
search depth can reach. -/
def solveAux (st : BoardState) (maxC : Nat) (timeUp : Nat → Bool) :
    Nat → List CellState → SearchAcc → SearchAcc
  | 0, _, acc => acc
  | fuel + 1, cells, acc =>
    let acc1 : SearchAcc := { acc with ticks := acc.ticks + 1 }
    if timeUp acc.ticks then acc1
    else if maxC ≤ acc.count then acc1
    else
      match (List.range (st.size * st.size)).find?
          (fun i => cells.get? i == some CellState.Unknown) with
      | none =>
        if isValidCompletion { st with cellStates := cells } then
          { acc1 with completions := acc1.completions ++ [cells], count := acc1.count + 1 }
        else acc1
      | some nextCell =>
        let cellsStar := cells.set nextCell CellState.Star
        let acc2 :=
          if isValidPartialState { st with cellStates := cellsStar } then
            solveAux st maxC timeUp fuel cellsStar acc1
          else acc1
        let cellsEmpty := cells.set nextCell CellState.Empty
        if isValidPartialState { st with cellStates := cellsEmpty } then
          solveAux st maxC timeUp fuel cellsEmpty acc2
        else acc2

/-- The search state produced inside enumerateAllCompletions by running
solve on the input board. -/
def enumerateSearch (state : BoardState) (maxCompletions : Nat) (timeUp : Nat → Bool) :
    SearchAcc :=
  solveAux state maxCompletions timeUp (state.size * state.size + 1) state.cellStates
    ⟨[], 0, 0⟩

/-- Per-cell classification labels of the analysis (the spec's
alwaysMarked, alwaysUnmarked, variable). -/
inductive CellClass where
  | alwaysStar
  | alwaysEmpty
  | variable'
deriving DecidableEq, Repr

/-- JS Set insertion: append the element unless already present. -/
def setAdd (s : List (Option CellState)) (x : Option CellState) : List (Option CellState) :=
  if x ∈ s then s else s ++ [x]

/-- The observation set cellResults.get(i) accumulates: the (deduplicated)
values read at index i of each recorded completion, in recording order; an
out-of-range read contributes undefined, modelled as none. -/
def observedStates (completions : List (List CellState)) (i : Nat) :
    List (Option CellState) :=
  completions.foldl (fun s c => setAdd s (c.get? i)) []

/-- Classification loop body of enumerateAllCompletions: empty set means
variable; a singleton set means alwaysStar exactly when the one element is
Star; otherwise alwaysStar or alwaysEmpty when only one of Star and Empty
was observed, else variable. -/
def classify (states : List (Option CellState)) : CellClass :=
  if states.length = 0 then CellClass.variable'
  else if states.length = 1 then
    if states.headD none == some CellState.Star then CellClass.alwaysStar
    else CellClass.alwaysEmpty
  else
    if some CellState.Star ∈ states ∧ some CellState.Empty ∉ states then CellClass.alwaysStar
    else if some CellState.Empty ∈ states ∧ some CellState.Star ∉ states then
      CellClass.alwaysEmpty
    else CellClass.variable'

/-- Result record of enumerateAllCompletions; cellResults lists the
classification of cells 0 .. size*size - 1 in order, mirroring the Map
keyed by those indices. -/
structure CompletionAnalysis where
  cellResults : List CellClass
  totalCompletions : Nat
deriving DecidableEq, Repr

/-- Source enumerateAllCompletions: run the backtracking search, then
classify every cell index below size*size from its observation set. -/
def enumerateAllCompletions (state : BoardState) (maxCompletions : Nat)
    (timeUp : Nat → Bool) : CompletionAnalysis :=
  let acc := enumerateSearch state maxCompletions timeUp
  { cellResults :=
      (List.range (state.size * state.size)).map
        (fun i => classify (observedStates acc.completions i)),
    totalCompletions := acc.count }

/-- A window: a rectangle of the nominal full board, identified by its
dimensions and origin. -/
structure WindowSpec where
  width : Nat
  height : Nat
  originRow : Nat
  originCol : Nat
deriving DecidableEq, Repr

/-- Loop body of buildWindowBoard's region translation: one absolute cell id
is split into absolute row and column on the full board, shifted by the
window origin, kept only when the relative coordinates fall inside the
window, and re-encoded relative to the window. -/
def relCellId (window : WindowSpec) (boardSize : Nat) (absCellId : Nat) : Option Nat :=
  let absRow : Int := (absCellId / boardSize : Nat)
  let absCol : Int := (absCellId % boardSize : Nat)
  let relRow := absRow - window.originRow
  let relCol := absCol - window.originCol
  if 0 ≤ relRow ∧ relRow < (window.height : Int) ∧ 0 ≤ relCol ∧ relCol < (window.width : Int)
  then some (relRow.toNat * window.width + relCol.toNat)
  else none

/-- Per-region body of buildWindowBoard: translate the absolute cells,
discard the region when nothing remains in the window, otherwise give it
the heuristic quota (full-window cell count gives height * starsPerUnit,
more than one distinct row gives rows * starsPerUnit, else starsPerUnit). -/
def buildRegion (window : WindowSpec) (boardSize starsPerUnit : Nat)
    (entry : Nat × List Nat) : Option BoardGroup :=
  let windowCellIds := entry.2.filterMap (relCellId window boardSize)
  if windowCellIds.length = 0 then none
  else
    let rowsInRegion := (windowCellIds.map (fun cid => cid / window.width)).dedup
    let regionQuota :=
      if windowCellIds.length = window.width * window.height then
        window.height * starsPerUnit
      else if 1 < rowsInRegion.length then rowsInRegion.length * starsPerUnit
      else starsPerUnit
    some { id := entry.1, cells := windowCellIds, starsRequired := regionQuota }

/-- Source buildWindowBoard: rows and columns are synthesized from the
window dimensions with quota starsPerUnit each; the supplied region map
(its entries in insertion order) is translated per buildRegion, or, when
empty, the whole window becomes one region with quota
height * starsPerUnit; the board size for neighbor math is the larger
window dimension. -/
def buildWindowBoard (window : WindowSpec) (boardSize starsPerUnit : Nat)
    (regionMap : List (Nat × List Nat)) : BoardState :=
  let width := window.width
  let height := window.height
  let cellStates := List.replicate (width * height) CellState.Unknown
  let rows := (List.range height).map (fun r =>
    { id := r, cells := (List.range width).map (fun c => r * width + c),
      starsRequired := starsPerUnit : BoardGroup })
  let cols := (List.range width).map (fun c =>
    { id := c, cells := (List.range height).map (fun r => r * width + c),
      starsRequired := starsPerUnit : BoardGroup })
  let regions :=
    if regionMap.length ≠ 0 then
      regionMap.filterMap (buildRegion window boardSize starsPerUnit)
    else
      [{ id := 1, cells := List.range (width * height),
         starsRequired := height * starsPerUnit }]
  { size := max width height, starsPerLine := starsPerUnit, starsPerRegion := starsPerUnit,
    cellStates := cellStates, regions := regions, rows := rows, cols := cols }

/-- Guarded write of applyFixedClues: assign the value only when the index
is inside the cell array, as the source's bounds test does. -/
def setClue (v : CellState) (cs : List CellState) (cellId : Nat) : List CellState :=
  if cellId < cs.length then cs.set cellId v else cs

/-- Source applyFixedClues: copy the cell array, force the forcedStars
cells to Star and then the forcedEmpties cells to Empty (each write skipped
when its index is out of range), and return the board with the new array
and every other field unchanged. -/
def applyFixedClues (state : BoardState) (forcedStars forcedEmpties : List Nat) : BoardState :=
  let afterStars := forcedStars.foldl (setClue CellState.Star) state.cellStates
  let afterEmpties := forcedEmpties.foldl (setClue CellState.Empty) afterStars
  { state with cellStates := afterEmpties }

/-- Deduction kinds of a pattern ('forceStar' or 'forceEmpty'). -/
inductive DeductionType where
  | forceStar
  | forceEmpty
deriving DecidableEq, Repr

/-- One deduction: a kind and the window-relative cell ids it applies to. -/
structure Deduction where
  type : DeductionType
  relativeCellIds : List Nat
deriving DecidableEq, Repr

/-- Return value of verifyPattern. -/
structure VerifyResult where
  verified : Bool
  actualDeductions : List Deduction
deriving DecidableEq, Repr

/-- Source verifyPattern: enumerate completions with cap 1000; on zero
completions report unverified with no deductions; otherwise collect the
window cells classified alwaysStar and alwaysEmpty (indices below both the
window cell count and the cell-array length) into at most one deduction of
each kind, verified exactly when at least one deduction was produced. -/
def verifyPattern (state : BoardState) (window : WindowSpec) (timeUp : Nat → Bool) :
    VerifyResult :=
  let analysis := enumerateAllCompletions state 1000 timeUp
  if analysis.totalCompletions = 0 then { verified := false, actualDeductions := [] }
  else
    let idxs := List.range (min (window.width * window.height) state.cellStates.length)
    let forceStarCells :=
      idxs.filter (fun i => analysis.cellResults.get? i == some CellClass.alwaysStar)
    let forceEmptyCells :=
      idxs.filter (fun i => analysis.cellResults.get? i == some CellClass.alwaysEmpty)
    let ds :=
      (if forceStarCells.length > 0 then
        [{ type := DeductionType.forceStar, relativeCellIds := forceStarCells }] else []) ++
      (if forceEmptyCells.length > 0 then
        [{ type := DeductionType.forceEmpty, relativeCellIds := forceEmptyCells }] else [])
    { verified := decide (ds.length > 0), actualDeductions := ds }

/-- Guard in generatePatternsForFamily deciding whether a Pattern record is
created from a verification result. -/
def pipelineAcceptsPattern (v : VerifyResult) : Bool :=
  v.verified && decide (v.actualDeductions.length > 0)

/-- A discovered pattern; the family-specific data payload is opaque to the
key and the deduplicator and is modelled as a string. -/
structure Pattern where
  id : String
  familyId : String
  windowWidth : Nat
  windowHeight : Nat
  data : String
  deductions : List Deduction
deriving DecidableEq, Repr

/-- Rank realizing the localeCompare order of the two kind strings:
'forceEmpty' sorts before 'forceStar'. -/
def typeRank : DeductionType → Nat
  | DeductionType.forceEmpty => 0
  | DeductionType.forceStar => 1

/-- The total order of getPatternKey's deduction comparator: kind first
(localeCompare), then cell-list length, then the first differing cell
(lexicographic, which on equal-length lists is exactly the source's index
scan). -/
def dedLE (a b : Deduction) : Prop :=
  typeRank a.type < typeRank b.type ∨
  (typeRank a.type = typeRank b.type ∧
    (a.relativeCellIds.length < b.relativeCellIds.length ∨
     (a.relativeCellIds.length = b.relativeCellIds.length ∧
       (List.Lex (fun x y => x < y) a.relativeCellIds b.relativeCellIds ∨
        a.relativeCellIds = b.relativeCellIds))))

instance : DecidableRel dedLE := fun a b => by
  unfold dedLE
  exact inferInstance

/-- Normalization of one deduction inside getPatternKey: sort its cell-id
list ascending.  A JavaScript sort under a total antisymmetric comparator
returns the unique sorted permutation, so any sorting algorithm models
it. -/
def normDed (d : Deduction) : Deduction :=
  { type := d.type, relativeCellIds := d.relativeCellIds.insertionSort (fun x y => x ≤ y) }

/-- The data getPatternKey feeds to JSON.stringify.  JSON.stringify is
injective on values of this fixed shape, so equality of the produced key
strings coincides with equality of this structure. -/
structure PatternKey where
  width : Nat
  height : Nat
  familyId : String
  deductions : List Deduction
deriving DecidableEq, Repr

/-- Source getPatternKey: sort each deduction's cell list, sort the
deduction list by the comparator dedLE, and pack window dimensions, family
id and the sorted deductions into the canonical key. -/
def getPatternKey (p : Pattern) : PatternKey :=
  { width := p.windowWidth, height := p.windowHeight, familyId := p.familyId,
    deductions := (p.deductions.map normDed).insertionSort dedLE }

/-- Loop of deduplicatePatterns with the seen-key set made explicit. -/
def dedupAux : List Pattern → List PatternKey → List Pattern
  | [], _ => []
  | p :: ps, seen =>
    if getPatternKey p ∈ seen then dedupAux ps seen
    else p :: dedupAux ps (getPatternKey p :: seen)

/-- Source deduplicatePatterns: keep each pattern whose canonical key was
not seen before, in input order. -/
def deduplicatePatterns (patterns : List Pattern) : List Pattern :=
  dedupAux patterns []

/-- Board of Scenario B: 4-wide, 1-row window at the origin of a 4-board,
one region holding the whole row, per-unit quota 1, with cells 0, 1 and 2
forced to Empty through applyFixedClues. -/
def scenarioBBoard : BoardState :=
  applyFixedClues (buildWindowBoard ⟨4, 1, 0, 0⟩ 4 1 [(1, [0, 1, 2, 3])]) [] [0, 1, 2]

/-- C2 counterexample: on the Scenario B board the Enumerator does not
classify cell 3 as alwaysStar.  buildWindowBoard gives each of the four
one-cell window columns quota 1, which no assignment can satisfy together
with the row quota of 1, so the search records no completion and cell 3
is reported variable. -/
theorem scenarioB_cell3_not_alwaysStar :
    (enumerateAllCompletions scenarioBBoard 1000 (fun _ => false)).cellResults.get? 3 ≠
      some CellClass.alwaysStar := by
  decide

/-- C2 amended: on the Scenario B board the enumeration finds zero
completions (the one-cell window columns each carry quota 1, unsatisfiable
alongside the row quota of 1), and every cell, cell 3 included, is
classified variable. -/
theorem scenarioB_zero_completions_all_variable :
    (enumerateAllCompletions scenarioBBoard 1000 (fun _ => false)).totalCompletions = 0 ∧
    (enumerateAllCompletions scenarioBBoard 1000 (fun _ => false)).cellResults =
      List.replicate 16 CellClass.variable' := by
  decide

/-- Board of Scenario A: 2-by-2 window at the origin of a 2-board, the
whole window one region, per-unit quota 1 (buildWindowBoard then assigns
the full-window region quota height * 1 = 2). -/
def scenarioABoard : BoardState := buildWindowBoard ⟨2, 2, 0, 0⟩ 2 1 [(1, [0, 1, 2, 3])]

/-- C3 counterexample: on the Scenario A board the Enumerator does not
report 2 valid completions.  All four cells of a 2-by-2 window are
mutually 8-adjacent, so the two diagonal mark placements are invalid and
the search records nothing. -/
theorem scenarioA_not_two_completions :
    (enumerateAllCompletions scenarioABoard 1000 (fun _ => false)).totalCompletions ≠ 2 := by
  decide

/-- C3 amended: on the Scenario A board the Enumerator reports exactly 0
valid completions, because every pair of cells in a 2-by-2 window is
8-adjacent (and the full-window region carries quota 2); every cell is
classified variable. -/
theorem scenarioA_zero_completions_all_variable :
    (enumerateAllCompletions scenarioABoard 1000 (fun _ => false)).totalCompletions = 0 ∧
    (enumerateAllCompletions scenarioABoard 1000 (fun _ => false)).cellResults =
      List.replicate 4 CellClass.variable' := by
  decide

lemma setClue_length (v : CellState) (cs : List CellState) (j : Nat) :
    (setClue v cs j).length = cs.length := by
  unfold setClue
  split <;> simp

lemma foldl_setClue_length (v : CellState) (l : List Nat) (cs : List CellState) :
    (l.foldl (setClue v) cs).length = cs.length := by
  induction l generalizing cs with
  | nil => rfl
  | cons j t ih => simp [List.foldl_cons, ih, setClue_length]

lemma setClue_get_ne (v : CellState) (cs : List CellState) (j i : Nat) (h : i ≠ j) :
    (setClue v cs j).get? i = cs.get? i := by
  unfold setClue
  split
  · exact List.get?_set_ne _ _ (Ne.symm h)
  · rfl

lemma setClue_get_self (v : CellState) (cs : List CellState) (j : Nat) (h : j < cs.length) :
    (setClue v cs j).get? j = some v := by
  unfold setClue
  rw [if_pos h]
  exact List.get?_set_eq_of_lt _ h

lemma foldl_setClue_get_not_mem (v : CellState) (l : List Nat) (cs : List CellState)
    (i : Nat) (h : i ∉ l) : (l.foldl (setClue v) cs).get? i = cs.get? i := by
  induction l generalizing cs with
  | nil => rfl
  | cons j t ih =>
    simp only [List.foldl_cons]
    rw [ih _ (fun hm => h (List.mem_cons_of_mem _ hm))]
    exact setClue_get_ne v cs j i (fun he => h (he ▸ List.mem_cons_self _ _))

lemma setClue_get_stable (v : CellState) (cs : List CellState) (j i : Nat)
    (h : cs.get? i = some v) : (setClue v cs j).get? i = some v := by
  by_cases hij : i = j
  · subst hij
    have hlt : i < cs.length := by
      by_contra hge
      rw [List.get?_eq_none.2 (Nat.le_of_not_lt hge)] at h
      cases h
    rw [setClue_get_self v cs i hlt]
  · rw [setClue_get_ne v cs j i hij]
    exact h

lemma foldl_setClue_stable (v : CellState) (l : List Nat) (cs : List CellState)
    (i : Nat) (h : cs.get? i = some v) : (l.foldl (setClue v) cs).get? i = some v := by
  induction l generalizing cs with
  | nil => exact h
  | cons j t ih => exact ih _ (setClue_get_stable v cs j i h)

lemma foldl_setClue_get_mem (v : CellState) (l : List Nat) (cs : List CellState)
    (i : Nat) (hm : i ∈ l) (hlen : i < cs.length) :
    (l.foldl (setClue v) cs).get? i = some v := by
  induction l generalizing cs with
  | nil => cases hm
  | cons j t ih =>
    simp only [List.foldl_cons]
    rcases List.mem_cons.1 hm with he | ht
    · subst he
      exact foldl_setClue_stable v t _ i (setClue_get_self v cs i hlen)
    · exact ih (setClue v cs j) ht (by rw [setClue_length]; exact hlen)

/-- Witness board: a 1-by-1 board whose single cell must be a star; its
unique completion is [Star]. -/
def sampleBoard : BoardState :=
  { size := 1, starsPerLine := 1, starsPerRegion := 1,
    cellStates := [CellState.Unknown],
    regions := [{ id := 1, cells := [0], starsRequired := 1 }],
    rows := [{ id := 0, cells := [0], starsRequired := 1 }],
    cols := [{ id := 0, cells := [0], starsRequired := 1 }] }

/-- Unfolding equation for the cell array produced by applyFixedClues. -/
lemma applyFixedClues_cellStates (state : BoardState) (a b : List Nat) :
    (applyFixedClues state a b).cellStates =
      b.foldl (setClue CellState.Empty) (a.foldl (setClue CellState.Star) state.cellStates) :=
  rfl

/-- C7: applyFixedClues returns a board in which exactly the listed cells
are set to Star and Empty respectively (for disjoint in-range clue lists,
the Empty pass running second), every other cell's value is unchanged, all
non-cell fields are unchanged, and with both clue lists empty the returned
board is value-equal to the input. -/
theorem applyFixedClues_spec (state : BoardState) (marked unmarked : List Nat)
    (hm : ∀ c ∈ marked, c < state.cellStates.length)
    (hu : ∀ c ∈ unmarked, c < state.cellStates.length)
    (hdisj : ∀ c ∈ marked, c ∉ unmarked) :
    (∀ c ∈ marked,
      (applyFixedClues state marked unmarked).cellStates.get? c = some CellState.Star) ∧
    (∀ c ∈ unmarked,
      (applyFixedClues state marked unmarked).cellStates.get? c = some CellState.Empty) ∧
    (∀ i, i ∉ marked → i ∉ unmarked →
      (applyFixedClues state marked unmarked).cellStates.get? i = state.cellStates.get? i) ∧
    applyFixedClues state marked unmarked =
      { state with cellStates := (applyFixedClues state marked unmarked).cellStates } ∧
    applyFixedClues state [] [] = state := by
  refine ⟨?_, ?_, ?_, rfl, rfl⟩
  · intro c hc
    rw [applyFixedClues_cellStates, foldl_setClue_get_not_mem _ _ _ _ (hdisj c hc)]
    exact foldl_setClue_get_mem _ _ _ _ hc (hm c hc)
  · intro c hc
    rw [applyFixedClues_cellStates]
    exact foldl_setClue_get_mem _ _ _ _ hc
      (by rw [foldl_setClue_length]; exact hu c hc)
  · intro i him hiu
    rw [applyFixedClues_cellStates, foldl_setClue_get_not_mem _ _ _ _ hiu,
      foldl_setClue_get_not_mem _ _ _ _ him]

/-- Witness for C7 at the 1-by-1 board with cell 0 forced to Star. -/
theorem applyFixedClues_spec_witness :
    (∀ c ∈ [0], c < sampleBoard.cellStates.length) ∧
    ((∀ c ∈ [0],
       (applyFixedClues sampleBoard [0] []).cellStates.get? c = some CellState.Star) ∧
     (∀ c ∈ ([] : List Nat),
       (applyFixedClues sampleBoard [0] []).cellStates.get? c = some CellState.Empty) ∧
     (∀ i, i ∉ [0] → i ∉ ([] : List Nat) →
       (applyFixedClues sampleBoard [0] []).cellStates.get? i =
         sampleBoard.cellStates.get? i) ∧
     applyFixedClues sampleBoard [0] [] =
       { sampleBoard with cellStates := (applyFixedClues sampleBoard [0] []).cellStates } ∧
     applyFixedClues sampleBoard [] [] = sampleBoard) :=
  ⟨by decide, applyFixedClues_spec sampleBoard [0] [] (by decide) (by decide) (by decide)⟩

/-- C8 counterexample: applyFixedClues given an out-of-range clue index
(5, or 7, on a board with one cell) returns the board unchanged — the
clue is silently skipped by the bounds test, and no invalid-argument
signal of any kind exists in the code. -/
theorem applyFixedClues_out_of_range_not_error :
    applyFixedClues sampleBoard [5] [] = sampleBoard ∧
    applyFixedClues sampleBoard [] [7] = sampleBoard := by
  decide

/-- Clue writes whose index is out of range can be dropped without changing
the fold's result. -/
lemma foldl_setClue_filter (v : CellState) (l : List Nat) (cs : List CellState) :
    l.foldl (setClue v) cs =
      (l.filter (fun c => decide (c < cs.length))).foldl (setClue v) cs := by
  induction l generalizing cs with
  | nil => rfl
  | cons j t ih =>
    by_cases hj : j < cs.length
    · rw [List.filter_cons, if_pos (by simpa using hj)]
      simp only [List.foldl_cons]
      rw [ih (setClue v cs j)]
      rw [setClue_length]
    · rw [List.filter_cons, if_neg (by simpa using hj)]
      simp only [List.foldl_cons]
      have : setClue v cs j = cs := by
        unfold setClue
        rw [if_neg hj]
      rw [this]
      exact ih cs

/-- C8 amended: applyFixedClues silently ignores out-of-range clue cell
indices — its result equals applying only the in-range clues — rather
than signalling an invalid-argument error. -/
theorem applyFixedClues_ignores_out_of_range (state : BoardState)
    (stars empties : List Nat) :
    applyFixedClues state stars empties =
      applyFixedClues state
        (stars.filter (fun c => decide (c < state.cellStates.length)))
        (empties.filter (fun c => decide (c < state.cellStates.length))) := by
  have h1 : (stars.foldl (setClue CellState.Star) state.cellStates) =
      ((stars.filter (fun c => decide (c < state.cellStates.length))).foldl
        (setClue CellState.Star) state.cellStates) := foldl_setClue_filter _ _ _
  show ({ state with cellStates := _ } : BoardState) = { state with cellStates := _ }
  congr 1
  rw [h1]
  rw [foldl_setClue_filter CellState.Empty empties]
  rw [foldl_setClue_length]

/-- Master invariant of the backtracking search: any property P that holds
of every assignment recorded at a valid leaf (full length, no Unknown cell
below size*size, isValidCompletion) holds of every completion in the
output accumulator, provided it held of the input accumulator. -/
lemma solveAux_recorded_aux (st : BoardState) (maxC : Nat) (timeUp : Nat → Bool)
    (L : Nat) (P : List CellState → Prop)
    (hrec : ∀ c, c.length = L →
      ((List.range (st.size * st.size)).find?
        (fun i => c.get? i == some CellState.Unknown) = none) →
      isValidCompletion { st with cellStates := c } = true → P c) :
    ∀ (fuel : Nat) (cells : List CellState) (acc : SearchAcc),
      cells.length = L → (∀ c ∈ acc.completions, P c) →
      ∀ c ∈ (solveAux st maxC timeUp fuel cells acc).completions, P c := by
  intro fuel
  induction fuel with
  | zero =>
    intro cells acc _ hacc c hc
    exact hacc c hc
  | succ n ih =>
    intro cells acc hlen hacc
    rw [solveAux]
    by_cases ht : timeUp acc.ticks
    · rw [if_pos ht]
      exact hacc
    · rw [if_neg ht]
      by_cases hcap : maxC ≤ acc.count
      · rw [if_pos hcap]
        exact hacc
      · rw [if_neg hcap]
        cases hfind : (List.range (st.size * st.size)).find?
            (fun i => cells.get? i == some CellState.Unknown) with
        | none =>
          by_cases hvalid : isValidCompletion { st with cellStates := cells } = true
          · rw [if_pos hvalid]
            intro c hc
            rcases List.mem_append.1 hc with hmem | hmem
            · exact hacc c hmem
            · rw [List.mem_singleton.1 hmem]
              exact hrec cells hlen hfind hvalid
          · rw [if_neg hvalid]
            exact hacc
        | some nextCell =>
          dsimp only
          have hlen1 : (cells.set nextCell CellState.Star).length = L := by
            rw [List.length_set]; exact hlen
          have hlen2 : (cells.set nextCell CellState.Empty).length = L := by
            rw [List.length_set]; exact hlen
          have hstep1 : ∀ c ∈ (if isValidPartialState
              { st with cellStates := cells.set nextCell CellState.Star } then
                solveAux st maxC timeUp n (cells.set nextCell CellState.Star)
                  { acc with ticks := acc.ticks + 1 }
              else { acc with ticks := acc.ticks + 1 }).completions, P c := by
            by_cases hp : isValidPartialState
                { st with cellStates := cells.set nextCell CellState.Star } = true
            · rw [if_pos hp]
              exact ih _ _ hlen1 hacc
            · rw [if_neg hp]
              exact hacc
          by_cases hp2 : isValidPartialState
              { st with cellStates := cells.set nextCell CellState.Empty } = true
          · rw [if_pos hp2]
            exact ih _ _ hlen2 hstep1
          · rw [if_neg hp2]
            exact hstep1

/-- The completion counter stays synchronized with the number of recorded
completions and never exceeds the cap. -/
lemma solveAux_count_aux (st : BoardState) (maxC : Nat) (timeUp : Nat → Bool) :
    ∀ (fuel : Nat) (cells : List CellState) (acc : SearchAcc),
      acc.count = acc.completions.length → acc.count ≤ maxC →
      ((solveAux st maxC timeUp fuel cells acc).count =
        (solveAux st maxC timeUp fuel cells acc).completions.length ∧
       (solveAux st maxC timeUp fuel cells acc).count ≤ maxC) := by
  intro fuel
  induction fuel with
  | zero =>
    intro cells acc h1 h2
    exact ⟨h1, h2⟩
  | succ n ih =>
    intro cells acc h1 h2
    rw [solveAux]
    by_cases ht : timeUp acc.ticks
    · rw [if_pos ht]
      exact ⟨h1, h2⟩
    · rw [if_neg ht]
      by_cases hcap : maxC ≤ acc.count
      · rw [if_pos hcap]
        exact ⟨h1, h2⟩
      · rw [if_neg hcap]
        cases hfind : (List.range (st.size * st.size)).find?
            (fun i => cells.get? i == some CellState.Unknown) with
        | none =>
          by_cases hvalid : isValidCompletion { st with cellStates := cells } = true
          · rw [if_pos hvalid]
            constructor
            · simp only [List.length_append, List.length_singleton]
              omega
            · simp only []
              omega
          · rw [if_neg hvalid]
            exact ⟨h1, h2⟩
        | some nextCell =>
          dsimp only
          have hstep1 := fun hone htwo => ih (cells.set nextCell CellState.Star)
            { acc with ticks := acc.ticks + 1 } hone htwo
          by_cases hp1 : isValidPartialState
              { st with cellStates := cells.set nextCell CellState.Star } = true
          · rw [if_pos hp1]
            by_cases hp2 : isValidPartialState
                { st with cellStates := cells.set nextCell CellState.Empty } = true
            · rw [if_pos hp2]
              exact ih _ _ (hstep1 h1 (Nat.le_of_lt (Nat.lt_of_not_le hcap))).1
                (hstep1 h1 (Nat.le_of_lt (Nat.lt_of_not_le hcap))).2
            · rw [if_neg hp2]
              exact hstep1 h1 (Nat.le_of_lt (Nat.lt_of_not_le hcap))
          · rw [if_neg hp1]
            by_cases hp2 : isValidPartialState
                { st with cellStates := cells.set nextCell CellState.Empty } = true
            · rw [if_pos hp2]
              exact ih _ _ h1 (Nat.le_of_lt (Nat.lt_of_not_le hcap))
            · rw [if_neg hp2]
              exact ⟨h1, h2⟩

/-- Every completion recorded by the enumeration has the board's cell-array
length, leaves no cell below size*size Unknown, and passes
isValidCompletion. -/
lemma enumerateSearch_recorded (state : BoardState) (maxC : Nat) (timeUp : Nat → Bool) :
    ∀ c ∈ (enumerateSearch state maxC timeUp).completions,
      c.length = state.cellStates.length ∧
      (∀ j, j < state.size * state.size → c.get? j ≠ some CellState.Unknown) ∧
      isValidCompletion { state with cellStates := c } = true := by
  unfold enumerateSearch
  refine solveAux_recorded_aux state maxC timeUp state.cellStates.length _ ?_ _ _ _ rfl ?_
  · intro c hlen hfind hvalid
    refine ⟨hlen, ?_, hvalid⟩
    intro j hj
    have h := List.find?_eq_none.1 hfind j (List.mem_range.2 hj)
    simpa using h
  · intro c hc
    cases hc

/-- At the top level the counter equals the number of recorded completions
and is bounded by maxCompletions. -/
lemma enumerateSearch_count (state : BoardState) (maxC : Nat) (timeUp : Nat → Bool) :
    (enumerateSearch state maxC timeUp).count =
      (enumerateSearch state maxC timeUp).completions.length ∧
    (enumerateSearch state maxC timeUp).count ≤ maxC := by
  unfold enumerateSearch
  exact solveAux_count_aux state maxC timeUp _ _ _ rfl (Nat.zero_le maxC)

/-- C1: every completion recorded by enumerateAllCompletions (the content
of its search state) satisfies the complete-assignment invariants: each
row's, column's and region's star count equals its quota exactly, and no
starred cell has a starred 8-neighbor. -/
theorem enumerateSearch_recorded_completions_valid (state : BoardState) (maxC : Nat)
    (timeUp : Nat → Bool) (c : List CellState)
    (hc : c ∈ (enumerateSearch state maxC timeUp).completions) :
    (∀ g ∈ state.rows, countStars c g.cells = g.starsRequired) ∧
    (∀ g ∈ state.cols, countStars c g.cells = g.starsRequired) ∧
    (∀ g ∈ state.regions, countStars c g.cells = g.starsRequired) ∧
    ∀ i, i < state.size * state.size → c.get? i = some CellState.Star →
      ∀ p ∈ getNeighbors8 i state.size,
        c.get? (p.1 * state.size + p.2) ≠ some CellState.Star := by
  have h := (enumerateSearch_recorded state maxC timeUp c hc).2.2
  rw [isValidCompletion] at h
  simp only [Bool.and_eq_true, List.all_eq_true, beq_iff_eq, Bool.not_eq_true'] at h
  obtain ⟨⟨⟨hrows, hcols⟩, hregs⟩, hadj⟩ := h
  refine ⟨hrows, hcols, hregs, ?_⟩
  intro i hi hstar p hp hnstar
  rw [hasAdjacentStars, List.any_eq_false] at hadj
  have h2 := hadj i (List.mem_range.2 hi)
  simp only [Bool.and_eq_true, beq_iff_eq, List.any_eq_true, not_and, not_exists] at h2
  exact h2 hstar p hp hnstar

/-- Witness for C1 at the 1-by-1 board, whose single recorded completion
is [Star]. -/
theorem enumerateSearch_recorded_completions_valid_witness :
    ([CellState.Star] ∈ (enumerateSearch sampleBoard 5 (fun _ => false)).completions) ∧
    ((∀ g ∈ sampleBoard.rows, countStars [CellState.Star] g.cells = g.starsRequired) ∧
     (∀ g ∈ sampleBoard.cols, countStars [CellState.Star] g.cells = g.starsRequired) ∧
     (∀ g ∈ sampleBoard.regions, countStars [CellState.Star] g.cells = g.starsRequired) ∧
     ∀ i, i < sampleBoard.size * sampleBoard.size →
       [CellState.Star].get? i = some CellState.Star →
       ∀ p ∈ getNeighbors8 i sampleBoard.size,
         [CellState.Star].get? (p.1 * sampleBoard.size + p.2) ≠ some CellState.Star) :=
  ⟨by decide,
   enumerateSearch_recorded_completions_valid sampleBoard 5 (fun _ => false)
     [CellState.Star] (by decide)⟩

/-- Membership through one JS-Set insertion. -/
lemma setAdd_mem (s : List (Option CellState)) (x y : Option CellState) :
    y ∈ setAdd s x ↔ y ∈ s ∨ y = x := by
  unfold setAdd
  split
  · rename_i hx
    constructor
    · exact Or.inl
    · rintro (h | rfl)
      · exact h
      · exact hx
  · simp [List.mem_append]

/-- Membership in the observation-set fold. -/
lemma observedStates_foldl_mem (i : Nat) :
    ∀ (comps : List (List CellState)) (s : List (Option CellState)) (x : Option CellState),
      (x ∈ comps.foldl (fun s c => setAdd s (c.get? i)) s ↔
        x ∈ s ∨ ∃ c ∈ comps, c.get? i = x) := by
  intro comps
  induction comps with
  | nil => simp
  | cons c t ih =>
    intro s x
    simp only [List.foldl_cons]
    rw [ih]
    rw [setAdd_mem]
    constructor
    · rintro ((h | h) | ⟨c', hc', he⟩)
      · exact Or.inl h
      · exact Or.inr ⟨c, List.mem_cons_self _ _, h.symm⟩
      · exact Or.inr ⟨c', List.mem_cons_of_mem _ hc', he⟩
    · rintro (h | ⟨c', hc', he⟩)
      · exact Or.inl (Or.inl h)
      · rcases List.mem_cons.1 hc' with rfl | hm
        · exact Or.inl (Or.inr he.symm)
        · exact Or.inr ⟨c', hm, he⟩

/-- A value was observed for cell i exactly when some recorded completion
reads it at i. -/
lemma mem_observedStates (comps : List (List CellState)) (i : Nat) (x : Option CellState) :
    x ∈ observedStates comps i ↔ ∃ c ∈ comps, c.get? i = x := by
  unfold observedStates
  rw [observedStates_foldl_mem]
  simp

/-- With at least one recorded completion the observation set is
nonempty. -/
lemma observedStates_ne_nil (comps : List (List CellState)) (i : Nat) (h : comps ≠ []) :
    observedStates comps i ≠ [] := by
  cases comps with
  | nil => exact absurd rfl h
  | cons c t =>
    intro hnil
    have : c.get? i ∈ observedStates (c :: t) i :=
      (mem_observedStates _ _ _).2 ⟨c, List.mem_cons_self _ _, rfl⟩
    rw [hnil] at this
    cases this

/-- JS-Set insertion preserves distinctness. -/
lemma setAdd_nodup (s : List (Option CellState)) (x : Option CellState) (h : s.Nodup) :
    (setAdd s x).Nodup := by
  unfold setAdd
  split
  · exact h
  · rename_i hx
    simpa [List.nodup_append] using ⟨h, hx⟩

/-- Observation sets hold distinct values. -/
lemma observedStates_nodup (comps : List (List CellState)) (i : Nat) :
    (observedStates comps i).Nodup := by
  unfold observedStates
  have : ∀ (cs : List (List CellState)) (s : List (Option CellState)), s.Nodup →
      (cs.foldl (fun s c => setAdd s (c.get? i)) s).Nodup := by
    intro cs
    induction cs with
    | nil => intro s hs; exact hs
    | cons c t ih =>
      intro s hs
      exact ih _ (setAdd_nodup s (c.get? i) hs)
  exact this comps [] List.nodup_nil

/-- A nonempty duplicate-free list all of whose members equal x is [x]. -/
lemma eq_singleton_of_all_eq (l : List (Option CellState)) (x : Option CellState)
    (hne : l ≠ []) (hnd : l.Nodup) (hall : ∀ y ∈ l, y = x) : l = [x] := by
  cases l with
  | nil => exact absurd rfl hne
  | cons a t =>
    have ha : a = x := hall a (List.mem_cons_self _ _)
    subst ha
    cases t with
    | nil => rfl
    | cons b u =>
      have hb : b = a := hall b (List.mem_cons_of_mem _ (List.mem_cons_self _ _))
      exfalso
      exact (List.nodup_cons.1 hnd).1 (hb ▸ List.mem_cons_self _ _)

/-- Characterization of the classification loop when every recorded value
at cell i is Star or Empty: alwaysStar exactly when some completion was
recorded and all of them read Star at i, and dually for alwaysEmpty. -/
lemma classify_pair_iff (comps : List (List CellState)) (i : Nat)
    (hvals : ∀ c ∈ comps,
      c.get? i = some CellState.Star ∨ c.get? i = some CellState.Empty) :
    (classify (observedStates comps i) = CellClass.alwaysStar ↔
      (comps ≠ [] ∧ ∀ c ∈ comps, c.get? i = some CellState.Star)) ∧
    (classify (observedStates comps i) = CellClass.alwaysEmpty ↔
      (comps ≠ [] ∧ ∀ c ∈ comps, c.get? i = some CellState.Empty)) := by
  by_cases hne : comps = []
  · subst hne
    constructor
    · simp [observedStates, classify]
    · simp [observedStates, classify]
  · by_cases hallS : ∀ c ∈ comps, c.get? i = some CellState.Star
    · have hobs : observedStates comps i = [some CellState.Star] := by
        apply eq_singleton_of_all_eq _ _ (observedStates_ne_nil _ _ hne)
          (observedStates_nodup _ _)
        intro y hy
        obtain ⟨c, hc, he⟩ := (mem_observedStates _ _ _).1 hy
        rw [← he]
        exact hallS c hc
      rw [hobs]
      constructor
      · exact ⟨fun _ => ⟨hne, hallS⟩, fun _ => rfl⟩
      · constructor
        · intro h
          exact absurd h (by decide)
        · rintro ⟨-, hallE2⟩
          obtain ⟨c, hc⟩ := List.exists_mem_of_ne_nil comps hne
          have h1 := hallE2 c hc
          rw [hallS c hc] at h1
          cases h1
    · by_cases hallE : ∀ c ∈ comps, c.get? i = some CellState.Empty
      · have hobs : observedStates comps i = [some CellState.Empty] := by
          apply eq_singleton_of_all_eq _ _ (observedStates_ne_nil _ _ hne)
            (observedStates_nodup _ _)
          intro y hy
          obtain ⟨c, hc, he⟩ := (mem_observedStates _ _ _).1 hy
          rw [← he]
          exact hallE c hc
        rw [hobs]
        constructor
        · constructor
          · intro h
            exact absurd h (by decide)
          · rintro ⟨-, hallS'⟩
            exact absurd hallS' hallS
        · exact ⟨fun _ => ⟨hne, hallE⟩, fun _ => rfl⟩
      · push_neg at hallS hallE
        obtain ⟨c1, hc1, hne1⟩ := hallS
        obtain ⟨c2, hc2, hne2⟩ := hallE
        have he1 : c1.get? i = some CellState.Empty := by
          rcases hvals c1 hc1 with h | h
          · exact absurd h hne1
          · exact h
        have hs2 : c2.get? i = some CellState.Star := by
          rcases hvals c2 hc2 with h | h
          · exact h
          · exact absurd h hne2
        have hmemS : some CellState.Star ∈ observedStates comps i :=
          (mem_observedStates _ _ _).2 ⟨c2, hc2, hs2⟩
        have hmemE : some CellState.Empty ∈ observedStates comps i :=
          (mem_observedStates _ _ _).2 ⟨c1, hc1, he1⟩
        have hlen2 : 2 ≤ (observedStates comps i).length := by
          rcases hobs : observedStates comps i with _ | ⟨a, _ | ⟨b, u⟩⟩
          · rw [hobs] at hmemS
            cases hmemS
          · rw [hobs] at hmemS hmemE
            have h1 := List.mem_singleton.1 hmemS
            have h2 := List.mem_singleton.1 hmemE
            rw [← h2] at h1
            cases h1
          · simp [Nat.succ_le_succ, Nat.succ_le_of_lt]
        have hclass : classify (observedStates comps i) = CellClass.variable' := by
          unfold classify
          rw [if_neg (by omega), if_neg (by omega),
            if_neg (by rintro ⟨-, h⟩; exact h hmemE),
            if_neg (by rintro ⟨-, h⟩; exact h hmemS)]
        rw [hclass]
        constructor
        · constructor
          · intro h
            cases h
          · rintro ⟨-, hallS'⟩
            exact absurd (hallS' c1 hc1) hne1
        · constructor
          · intro h
            cases h
          · rintro ⟨-, hallE'⟩
            exact absurd (hallE' c2 hc2) hne2

/-- The classification list entry at a cell index below size*size. -/
lemma enumerateAllCompletions_cellResults_get (state : BoardState) (maxC : Nat)
    (timeUp : Nat → Bool) (i : Nat) (hi : i < state.size * state.size) :
    (enumerateAllCompletions state maxC timeUp).cellResults.get? i =
      some (classify (observedStates (enumerateSearch state maxC timeUp).completions i)) := by
  unfold enumerateAllCompletions
  simp only [List.get?_map]
  rw [List.get?_range hi]
  rfl

/-- At an in-range cell index every recorded completion reads Star or
Empty. -/
lemma enumerateSearch_vals (state : BoardState) (maxC : Nat) (timeUp : Nat → Bool)
    (i : Nat) (hi : i < state.size * state.size) (hilen : i < state.cellStates.length) :
    ∀ c ∈ (enumerateSearch state maxC timeUp).completions,
      c.get? i = some CellState.Star ∨ c.get? i = some CellState.Empty := by
  intro c hc
  obtain ⟨hlen, hnu, -⟩ := enumerateSearch_recorded state maxC timeUp c hc
  have hilen2 : i < c.length := by rw [hlen]; exact hilen
  rw [List.get?_eq_get hilen2]
  cases hv : c.get ⟨i, hilen2⟩ with
  | Unknown =>
    exfalso
    exact hnu i hi (by rw [List.get?_eq_get hilen2, hv])
  | Star => exact Or.inl rfl
  | Empty => exact Or.inr rfl

/-- C4: totalCompletions equals the number of recorded completions and
never exceeds maxCompletions; and an in-range cell is classified
alwaysStar exactly when at least one completion was recorded and the cell
reads Star in all of them, alwaysEmpty dually for Empty, and variable
exactly otherwise. -/
theorem enumerateAllCompletions_contract (state : BoardState) (maxC : Nat)
    (timeUp : Nat → Bool) (i : Nat)
    (hi : i < state.size * state.size) (hilen : i < state.cellStates.length) :
    (enumerateAllCompletions state maxC timeUp).totalCompletions =
      (enumerateSearch state maxC timeUp).completions.length ∧
    (enumerateAllCompletions state maxC timeUp).totalCompletions ≤ maxC ∧
    ((enumerateAllCompletions state maxC timeUp).cellResults.get? i =
        some CellClass.alwaysStar ↔
      ((enumerateSearch state maxC timeUp).completions ≠ [] ∧
        ∀ c ∈ (enumerateSearch state maxC timeUp).completions,
          c.get? i = some CellState.Star)) ∧
    ((enumerateAllCompletions state maxC timeUp).cellResults.get? i =
        some CellClass.alwaysEmpty ↔
      ((enumerateSearch state maxC timeUp).completions ≠ [] ∧
        ∀ c ∈ (enumerateSearch state maxC timeUp).completions,
          c.get? i = some CellState.Empty)) ∧
    ((enumerateAllCompletions state maxC timeUp).cellResults.get? i =
        some CellClass.variable' ↔
      (¬((enumerateSearch state maxC timeUp).completions ≠ [] ∧
          ∀ c ∈ (enumerateSearch state maxC timeUp).completions,
            c.get? i = some CellState.Star) ∧
       ¬((enumerateSearch state maxC timeUp).completions ≠ [] ∧
          ∀ c ∈ (enumerateSearch state maxC timeUp).completions,
            c.get? i = some CellState.Empty))) := by
  have hcount := enumerateSearch_count state maxC timeUp
  have htot : (enumerateAllCompletions state maxC timeUp).totalCompletions =
      (enumerateSearch state maxC timeUp).count := rfl
  have hget := enumerateAllCompletions_cellResults_get state maxC timeUp i hi
  have hvals := enumerateSearch_vals state maxC timeUp i hi hilen
  have hpair := classify_pair_iff (enumerateSearch state maxC timeUp).completions i hvals
  refine ⟨htot ▸ hcount.1, htot ▸ hcount.2, ?_, ?_, ?_⟩
  · rw [hget, Option.some_inj]
    exact hpair.1
  · rw [hget, Option.some_inj]
    exact hpair.2
  · rw [hget, Option.some_inj]
    constructor
    · intro hv
      constructor
      · intro hA
        have h2 := hpair.1.2 hA
        rw [hv] at h2
        cases h2
      · intro hE
        have h2 := hpair.2.2 hE
        rw [hv] at h2
        cases h2
    · rintro ⟨hA, hE⟩
      cases h : classify (observedStates (enumerateSearch state maxC timeUp).completions i) with
      | alwaysStar => exact absurd (hpair.1.1 h) hA
      | alwaysEmpty => exact absurd (hpair.2.1 h) hE
      | variable' => rfl

/-- Witness for C4 at the 1-by-1 board and cell 0. -/
theorem enumerateAllCompletions_contract_witness :
    (0 < sampleBoard.size * sampleBoard.size ∧ 0 < sampleBoard.cellStates.length) ∧
    ((enumerateAllCompletions sampleBoard 5 (fun _ => false)).totalCompletions =
        (enumerateSearch sampleBoard 5 (fun _ => false)).completions.length ∧
     (enumerateAllCompletions sampleBoard 5 (fun _ => false)).totalCompletions ≤ 5 ∧
     ((enumerateAllCompletions sampleBoard 5 (fun _ => false)).cellResults.get? 0 =
         some CellClass.alwaysStar ↔
       ((enumerateSearch sampleBoard 5 (fun _ => false)).completions ≠ [] ∧
         ∀ c ∈ (enumerateSearch sampleBoard 5 (fun _ => false)).completions,
           c.get? 0 = some CellState.Star)) ∧
     ((enumerateAllCompletions sampleBoard 5 (fun _ => false)).cellResults.get? 0 =
         some CellClass.alwaysEmpty ↔
       ((enumerateSearch sampleBoard 5 (fun _ => false)).completions ≠ [] ∧
         ∀ c ∈ (enumerateSearch sampleBoard 5 (fun _ => false)).completions,
           c.get? 0 = some CellState.Empty)) ∧
     ((enumerateAllCompletions sampleBoard 5 (fun _ => false)).cellResults.get? 0 =
         some CellClass.variable' ↔
       (¬((enumerateSearch sampleBoard 5 (fun _ => false)).completions ≠ [] ∧
           ∀ c ∈ (enumerateSearch sampleBoard 5 (fun _ => false)).completions,
             c.get? 0 = some CellState.Star) ∧
        ¬((enumerateSearch sampleBoard 5 (fun _ => false)).completions ≠ [] ∧
           ∀ c ∈ (enumerateSearch sampleBoard 5 (fun _ => false)).completions,
             c.get? 0 = some CellState.Empty)))) :=
  ⟨by decide,
   enumerateAllCompletions_contract sampleBoard 5 (fun _ => false) 0 (by decide) (by decide)⟩

/-- Witness board with no valid completion: one cell, quotas of 2. -/
def unsatBoard : BoardState :=
  { size := 1, starsPerLine := 2, starsPerRegion := 2,
    cellStates := [CellState.Unknown],
    regions := [{ id := 1, cells := [0], starsRequired := 2 }],
    rows := [{ id := 0, cells := [0], starsRequired := 2 }],
    cols := [{ id := 0, cells := [0], starsRequired := 2 }] }

/-- C5: whenever the enumeration reports zero completions every cell's
classification is variable; and on a board whose cap-1000 enumeration (the
one verifyPattern performs) reports zero completions, verifyPattern
returns verified = false with an empty deduction list, so the pipeline
guard accepts no Pattern from it. -/
theorem zero_completions_variable_and_unverified (state : BoardState) (maxC : Nat)
    (window : WindowSpec) (timeUp : Nat → Bool)
    (h : (enumerateAllCompletions state maxC timeUp).totalCompletions = 0)
    (h1000 : (enumerateAllCompletions state 1000 timeUp).totalCompletions = 0) :
    (∀ cl ∈ (enumerateAllCompletions state maxC timeUp).cellResults,
      cl = CellClass.variable') ∧
    verifyPattern state window timeUp = { verified := false, actualDeductions := [] } ∧
    pipelineAcceptsPattern (verifyPattern state window timeUp) = false := by
  have hc := enumerateSearch_count state maxC timeUp
  have hlen : (enumerateSearch state maxC timeUp).completions.length = 0 := by
    rw [← hc.1]
    exact h
  have hcomp : (enumerateSearch state maxC timeUp).completions = [] :=
    List.length_eq_zero.1 hlen
  have hvp : verifyPattern state window timeUp =
      { verified := false, actualDeductions := [] } := by
    unfold verifyPattern
    rw [if_pos h1000]
  refine ⟨?_, hvp, ?_⟩
  · intro cl hcl
    unfold enumerateAllCompletions at hcl
    simp only [List.mem_map] at hcl
    obtain ⟨j, -, hj⟩ := hcl
    rw [← hj, hcomp]
    rfl
  · rw [hvp]
    rfl

/-- Witness for C5 at the unsatisfiable one-cell board. -/
theorem zero_completions_variable_and_unverified_witness :
    ((enumerateAllCompletions unsatBoard 5 (fun _ => false)).totalCompletions = 0 ∧
     (enumerateAllCompletions unsatBoard 1000 (fun _ => false)).totalCompletions = 0) ∧
    ((∀ cl ∈ (enumerateAllCompletions unsatBoard 5 (fun _ => false)).cellResults,
       cl = CellClass.variable') ∧
     verifyPattern unsatBoard ⟨1, 1, 0, 0⟩ (fun _ => false) =
       { verified := false, actualDeductions := [] } ∧
     pipelineAcceptsPattern (verifyPattern unsatBoard ⟨1, 1, 0, 0⟩ (fun _ => false)) = false) :=
  ⟨by decide,
   zero_completions_variable_and_unverified unsatBoard 5 ⟨1, 1, 0, 0⟩ (fun _ => false)
     (by decide) (by decide)⟩

/-- Spec-side translation of one absolute region cell, written from the
claim's words: split the absolute id into absRow and absCol, take
relRow = absRow - originRow and relCol = absCol - originCol, and drop the
cell when it falls outside the window. -/
def specRelCell (window : WindowSpec) (boardSize : Nat) (absCellId : Nat) : Option Nat :=
  let absRow : Int := (absCellId / boardSize : Nat)
  let absCol : Int := (absCellId % boardSize : Nat)
  let relRow := absRow - window.originRow
  let relCol := absCol - window.originCol
  if 0 ≤ relRow ∧ relRow < (window.height : Int) ∧ 0 ≤ relCol ∧ relCol < (window.width : Int)
  then some (relRow.toNat * window.width + relCol.toNat)
  else none

/-- Spec-side quota, written from the claim's words: height times per-unit
when the remaining cells cover the full window, k times per-unit when they
span k greater than 1 distinct rows, per-unit otherwise. -/
def specRegionQuota (window : WindowSpec) (starsPerUnit : Nat) (cells : List Nat) : Nat :=
  if ∀ i < window.width * window.height, i ∈ cells then window.height * starsPerUnit
  else if 1 < ((cells.map (fun cid => cid / window.width)).dedup).length then
    ((cells.map (fun cid => cid / window.width)).dedup).length * starsPerUnit
  else starsPerUnit

/-- Spec-side region transformation, written from the claim's words:
translate each supplied cell, discard the region when no cell remains,
otherwise keep the remaining cells with the heuristic quota. -/
def specRegion (window : WindowSpec) (boardSize starsPerUnit : Nat)
    (entry : Nat × List Nat) : Option BoardGroup :=
  let remaining := entry.2.filterMap (specRelCell window boardSize)
  if remaining = [] then none
  else some { id := entry.1, cells := remaining,
              starsRequired := specRegionQuota window starsPerUnit remaining }

/-- The spec-side and source-side cell translations coincide. -/
lemma specRelCell_eq_relCellId : specRelCell = relCellId := rfl

/-- Row-major encodings below a width agree only on equal coordinates. -/
lemma rowcol_inj (w r1 c1 r2 c2 : Nat) (h1 : c1 < w) (h2 : c2 < w)
    (he : r1 * w + c1 = r2 * w + c2) : r1 = r2 ∧ c1 = c2 := by
  have hw : 0 < w := by omega
  have e1 : (r1 * w + c1) / w = r1 := by
    rw [Nat.mul_comm, Nat.mul_add_div hw, Nat.div_eq_of_lt h1, Nat.add_zero]
  have e2 : (r2 * w + c2) / w = r2 := by
    rw [Nat.mul_comm, Nat.mul_add_div hw, Nat.div_eq_of_lt h2, Nat.add_zero]
  rw [he] at e1
  rw [e2] at e1
  subst e1
  exact ⟨rfl, by omega⟩

/-- A translated cell id lies below width * height. -/
lemma relCellId_lt (window : WindowSpec) (boardSize a x : Nat)
    (h : relCellId window boardSize a = some x) :
    x < window.width * window.height := by
  unfold relCellId at h
  dsimp only at h
  split at h
  · rename_i hcond
    obtain ⟨h1, h2, h3, h4⟩ := hcond
    rw [Option.some_inj] at h
    subst h
    have hr : ((a / boardSize : Nat) - (window.originRow : Int)).toNat < window.height := by
      omega
    have hc : ((a % boardSize : Nat) - (window.originCol : Int)).toNat < window.width := by
      omega
    calc ((a / boardSize : Nat) - (window.originRow : Int)).toNat * window.width +
          ((a % boardSize : Nat) - (window.originCol : Int)).toNat
        < (((a / boardSize : Nat) - (window.originRow : Int)).toNat + 1) * window.width := by
          rw [Nat.add_mul, Nat.one_mul]
          omega
      _ ≤ window.height * window.width := Nat.mul_le_mul_right _ hr
      _ = window.width * window.height := Nat.mul_comm _ _
  · cases h

/-- The cell translation is injective where it is defined. -/
lemma relCellId_inj (window : WindowSpec) (boardSize a b x : Nat)
    (ha : relCellId window boardSize a = some x)
    (hb : relCellId window boardSize b = some x) : a = b := by
  unfold relCellId at ha hb
  dsimp only at ha hb
  split at ha
  case isFalse => cases ha
  case isTrue hca =>
  split at hb
  case isFalse => cases hb
  case isTrue hcb =>
  obtain ⟨ha1, ha2, ha3, ha4⟩ := hca
  obtain ⟨hb1, hb2, hb3, hb4⟩ := hcb
  rw [Option.some_inj] at ha hb
  have hColA : ((a % boardSize : Nat) - (window.originCol : Int)).toNat < window.width := by
    omega
  have hColB : ((b % boardSize : Nat) - (window.originCol : Int)).toNat < window.width := by
    omega
  obtain ⟨hrowEq, hcolEq⟩ := rowcol_inj window.width _ _ _ _ hColA hColB (ha.trans hb.symm)
  have hdivEq : a / boardSize = b / boardSize := by omega
  have hmodEq : a % boardSize = b % boardSize := by omega
  have ha' : boardSize * (a / boardSize) + a % boardSize = a := Nat.div_add_mod a boardSize
  have hb' : boardSize * (b / boardSize) + b % boardSize = b := Nat.div_add_mod b boardSize
  rw [hdivEq, hmodEq, hb'] at ha'
  exact ha'.symm

/-- For a duplicate-free list of numbers below n, having length n is the
same as containing every number below n. -/
lemma length_eq_iff_coverage (l : List Nat) (n : Nat) (hnd : l.Nodup)
    (hsub : ∀ x ∈ l, x < n) :
    (l.length = n ↔ ∀ i < n, i ∈ l) := by
  have hcard : l.toFinset.card = l.length := List.toFinset_card_of_nodup hnd
  have hss : l.toFinset ⊆ Finset.range n := by
    intro x hx
    rw [Finset.mem_range]
    exact hsub x (List.mem_toFinset.1 hx)
  constructor
  · intro hlen i hi
    have heq : l.toFinset = Finset.range n := by
      apply Finset.eq_of_subset_of_card_le hss
      rw [Finset.card_range, hcard, hlen]
    have : i ∈ l.toFinset := by
      rw [heq, Finset.mem_range]
      exact hi
    exact List.mem_toFinset.1 this
  · intro hcov
    have hss2 : Finset.range n ⊆ l.toFinset := by
      intro i hi
      rw [List.mem_toFinset]
      exact hcov i (Finset.mem_range.1 hi)
    have h1 : l.length ≤ n := by
      rw [← hcard, ← Finset.card_range n]
      exact Finset.card_le_card hss
    have h2 : n ≤ l.length := by
      rw [← hcard, ← Finset.card_range n]
      exact Finset.card_le_card hss2
    omega

/-- C6: for every window, board size, per-unit quota and nonempty region
map whose per-region absolute cell lists are duplicate-free, the regions
of the built board are exactly the supplied regions transformed as the
spec describes: each absolute cell translated by subtracting the window
origin, cells outside the window dropped, empty regions discarded, and
each surviving region given quota height * per-unit when its remaining
cells cover the full window, k * per-unit when they span k > 1 distinct
rows, and per-unit otherwise. -/
theorem buildWindowBoard_regions_spec (window : WindowSpec) (boardSize starsPerUnit : Nat)
    (regionMap : List (Nat × List Nat)) (hne : regionMap ≠ [])
    (hnd : ∀ e ∈ regionMap, List.Nodup e.2) :
    (buildWindowBoard window boardSize starsPerUnit regionMap).regions =
      regionMap.filterMap (specRegion window boardSize starsPerUnit) := by
  have hlen0 : regionMap.length ≠ 0 := fun h => hne (List.length_eq_zero.1 h)
  have hregions : (buildWindowBoard window boardSize starsPerUnit regionMap).regions =
      regionMap.filterMap (buildRegion window boardSize starsPerUnit) := by
    unfold buildWindowBoard
    dsimp only
    rw [if_pos hlen0]
  rw [hregions]
  apply List.filterMap_congr
  intro e he
  unfold buildRegion specRegion
  dsimp only
  rw [specRelCell_eq_relCellId]
  have hnodup : (e.2.filterMap (relCellId window boardSize)).Nodup :=
    List.Nodup.filterMap
      (fun a a' b hba hba' =>
        relCellId_inj window boardSize a a' b (Option.mem_def.1 hba) (Option.mem_def.1 hba'))
      (hnd e he)
  have hlt : ∀ x ∈ e.2.filterMap (relCellId window boardSize),
      x < window.width * window.height := by
    intro x hx
    obtain ⟨a, _, hfa⟩ := List.mem_filterMap.1 hx
    exact relCellId_lt window boardSize a x hfa
  by_cases hrem0 : e.2.filterMap (relCellId window boardSize) = []
  · rw [if_pos (by rw [hrem0]; rfl), if_pos hrem0]
  · rw [if_neg (fun h => hrem0 (List.length_eq_zero.1 h)), if_neg hrem0]
    rw [Option.some_inj]
    have hiff := length_eq_iff_coverage (e.2.filterMap (relCellId window boardSize))
      (window.width * window.height) hnodup hlt
    unfold specRegionQuota
    congr 1
    exact if_congr hiff rfl rfl

/-- Witness for C6: a 2-by-2 window at origin (1, 1) of a 4-board with one
full-window region, one region entirely outside the window, and one
partially overlapping region. -/
theorem buildWindowBoard_regions_spec_witness :
    (([(1, [5, 6, 9, 10]), (2, [0, 1, 2]), (3, [7, 9])] : List (Nat × List Nat)) ≠ [] ∧
     ∀ e ∈ ([(1, [5, 6, 9, 10]), (2, [0, 1, 2]), (3, [7, 9])] : List (Nat × List Nat)),
       List.Nodup e.2) ∧
    (buildWindowBoard ⟨2, 2, 1, 1⟩ 4 1
        [(1, [5, 6, 9, 10]), (2, [0, 1, 2]), (3, [7, 9])]).regions =
      ([(1, [5, 6, 9, 10]), (2, [0, 1, 2]), (3, [7, 9])] : List (Nat × List Nat)).filterMap
        (specRegion ⟨2, 2, 1, 1⟩ 4 1) :=
  ⟨⟨by decide, by decide⟩,
   buildWindowBoard_regions_spec ⟨2, 2, 1, 1⟩ 4 1
     [(1, [5, 6, 9, 10]), (2, [0, 1, 2]), (3, [7, 9])] (by decide) (by decide)⟩

/-- The lexicographic key realizing the deduction comparator: kind rank,
then cell-list length, then the cell list lexicographically. -/
def dedKey (d : Deduction) : Lex (Nat × Lex (Nat × List Nat)) :=
  toLex (typeRank d.type, toLex (d.relativeCellIds.length, d.relativeCellIds))

/-- The library order on lists of numbers unfolds to equality or strict
lexicographic order. -/
lemma list_le_iff (l1 l2 : List Nat) :
    l1 ≤ l2 ↔ l1 = l2 ∨ List.Lex (fun x y : Nat => x < y) l1 l2 :=
  Iff.rfl

/-- The comparator agrees with the lexicographic key order. -/
lemma dedLE_iff (a b : Deduction) : dedLE a b ↔ dedKey a ≤ dedKey b := by
  unfold dedLE dedKey
  rw [Prod.Lex.le_iff, Prod.Lex.le_iff]
  dsimp only
  rw [list_le_iff]
  tauto

/-- Distinct kinds have distinct ranks. -/
lemma typeRank_inj (a b : DeductionType) (h : typeRank a = typeRank b) : a = b := by
  cases a <;> cases b <;> first | rfl | cases h

/-- The lexicographic key determines the deduction. -/
lemma dedKey_inj (a b : Deduction) (h : dedKey a = dedKey b) : a = b := by
  unfold dedKey at h
  rw [toLex_inj, Prod.mk.injEq, toLex_inj, Prod.mk.injEq] at h
  obtain ⟨h1, -, h3⟩ := h
  cases a
  cases b
  simp only [Deduction.mk.injEq]
  exact ⟨typeRank_inj _ _ h1, h3⟩

instance : IsTotal Deduction dedLE :=
  ⟨fun a b => by
    rw [dedLE_iff, dedLE_iff]
    exact le_total _ _⟩

instance : IsTrans Deduction dedLE :=
  ⟨fun a b c hab hbc => by
    rw [dedLE_iff] at hab hbc ⊢
    exact le_trans hab hbc⟩

instance : IsAntisymm Deduction dedLE :=
  ⟨fun a b hab hba => by
    rw [dedLE_iff] at hab hba
    exact dedKey_inj a b (le_antisymm hab hba)⟩

/-- Two lists have the same sort exactly when they are permutations of each
other (for a total, transitive, antisymmetric order). -/
lemma insertionSort_eq_iff_perm {α : Type} (r : α → α → Prop) [DecidableRel r]
    [IsTotal α r] [IsTrans α r] [IsAntisymm α r] (l1 l2 : List α) :
    List.insertionSort r l1 = List.insertionSort r l2 ↔ l1.Perm l2 := by
  constructor
  · intro h
    exact (List.perm_insertionSort r l1).symm.trans (h ▸ List.perm_insertionSort r l2)
  · intro h
    exact List.eq_of_perm_of_sorted
      ((List.perm_insertionSort r l1).trans (h.trans (List.perm_insertionSort r l2).symm))
      (List.sorted_insertionSort r l1) (List.sorted_insertionSort r l2)

/-- Normalized deductions agree exactly when the kinds agree and the cell
lists are permutations of each other. -/
lemma normDed_eq_iff (d e : Deduction) :
    normDed d = normDed e ↔
      d.type = e.type ∧ d.relativeCellIds.Perm e.relativeCellIds := by
  unfold normDed
  rw [Deduction.mk.injEq]
  rw [insertionSort_eq_iff_perm]

/-- Pointwise equal images give equal maps. -/
lemma forall2_map_eq {α β : Type} (f : α → β) {ds l2 : List α}
    (h : List.Forall₂ (fun a b => f a = f b) ds l2) : ds.map f = l2.map f := by
  induction h with
  | nil => rfl
  | cons h1 _ ih =>
    simp only [List.map_cons]
    rw [h1, ih]

/-- Mapped lists are permutations exactly when the originals match up to a
permutation with pointwise equal images. -/
lemma map_perm_iff_exists {α β : Type} [DecidableEq α] (f : α → β) :
    ∀ (l2 l1 : List α),
      ((l1.map f).Perm (l2.map f) ↔
        ∃ ds, l1.Perm ds ∧ List.Forall₂ (fun a b => f a = f b) ds l2) := by
  intro l2
  induction l2 with
  | nil =>
    intro l1
    constructor
    · intro h
      have : l1.map f = [] := List.Perm.eq_nil (by simpa using h)
      have hl1 : l1 = [] := List.map_eq_nil.1 this
      exact ⟨[], by rw [hl1], List.Forall₂.nil⟩
    · rintro ⟨ds, hperm, hf⟩
      cases hf
      simpa using (hperm.map f)
  | cons b bs ih =>
    intro l1
    constructor
    · intro h
      have hmem : f b ∈ l1.map f := h.mem_iff.2 (by simp)
      obtain ⟨a, ha, hfa⟩ := List.mem_map.1 hmem
      have hperm1 : l1.Perm (a :: l1.erase a) := List.perm_cons_erase ha
      have hmap1 : (l1.map f).Perm (f a :: (l1.erase a).map f) := by
        have := hperm1.map f
        simpa using this
      have htail : ((l1.erase a).map f).Perm (bs.map f) := by
        have h2 : (f a :: (l1.erase a).map f).Perm (f b :: bs.map f) :=
          hmap1.symm.trans (by simpa using h)
        rw [hfa] at h2
        exact h2.cons_inv
      obtain ⟨ds, hds, hfds⟩ := (ih (l1.erase a)).1 htail
      exact ⟨a :: ds, hperm1.trans (hds.cons a), List.Forall₂.cons hfa hfds⟩
    · rintro ⟨ds, hperm, hf⟩
      rw [← forall2_map_eq f hf]
      exact hperm.map f

/-- C9: two Patterns produce the same canonical key exactly when they share
window width, window height and family id, and their deduction lists match
up to a permutation pairing deductions of equal kind whose cell-id lists
are permutations of each other.  The key is modelled as the structure
JSON.stringify serializes, on which stringify is injective. -/
theorem getPatternKey_eq_iff (p1 p2 : Pattern) :
    getPatternKey p1 = getPatternKey p2 ↔
      (p1.windowWidth = p2.windowWidth ∧ p1.windowHeight = p2.windowHeight ∧
       p1.familyId = p2.familyId ∧
       ∃ ds, p1.deductions.Perm ds ∧
         List.Forall₂
           (fun d e => d.type = e.type ∧ d.relativeCellIds.Perm e.relativeCellIds)
           ds p2.deductions) := by
  unfold getPatternKey
  rw [PatternKey.mk.injEq]
  constructor
  · rintro ⟨h1, h2, h3, h4⟩
    refine ⟨h1, h2, h3, ?_⟩
    rw [insertionSort_eq_iff_perm] at h4
    obtain ⟨ds, hp, hf⟩ := (map_perm_iff_exists normDed p2.deductions p1.deductions).1 h4
    exact ⟨ds, hp, hf.imp (fun {a b} hab => (normDed_eq_iff a b).1 hab)⟩
  · rintro ⟨h1, h2, h3, ds, hp, hf⟩
    refine ⟨h1, h2, h3, ?_⟩
    rw [insertionSort_eq_iff_perm]
    exact (map_perm_iff_exists normDed p2.deductions p1.deductions).2
      ⟨ds, hp, hf.imp (fun {a b} hab => (normDed_eq_iff a b).2 hab)⟩

/-- The deduplication loop returns a subsequence of its input. -/
lemma dedupAux_sublist : ∀ (ps : List Pattern) (seen : List PatternKey),
    (dedupAux ps seen).Sublist ps := by
  intro ps
  induction ps with
  | nil =>
    intro seen
    exact List.Sublist.refl []
  | cons p t ih =>
    intro seen
    unfold dedupAux
    by_cases h : getPatternKey p ∈ seen
    · rw [if_pos h]
      exact (ih seen).trans (List.sublist_cons_self p t)
    · rw [if_neg h]
      exact (ih (getPatternKey p :: seen)).cons₂ p

/-- Per canonical key, the deduplication loop keeps nothing when the key
was already seen, and exactly the first input pattern bearing it
otherwise. -/
lemma dedupAux_filter : ∀ (ps : List Pattern) (seen : List PatternKey) (k : PatternKey),
    (dedupAux ps seen).filter (fun p => getPatternKey p == k) =
      if k ∈ seen then [] else (ps.filter (fun p => getPatternKey p == k)).take 1 := by
  intro ps
  induction ps with
  | nil =>
    intro seen k
    by_cases h : k ∈ seen <;> simp [dedupAux, h]
  | cons p t ih =>
    intro seen k
    unfold dedupAux
    by_cases hp : getPatternKey p ∈ seen
    · rw [if_pos hp, ih seen k]
      by_cases hk : k ∈ seen
      · rw [if_pos hk, if_pos hk]
      · rw [if_neg hk, if_neg hk]
        have hne : ¬(getPatternKey p == k) = true := by
          intro hb
          exact hk (beq_iff_eq.1 hb ▸ hp)
        rw [List.filter_cons, if_neg hne]
    · rw [if_neg hp]
      by_cases hpk : getPatternKey p = k
      · subst hpk
        rw [List.filter_cons, if_pos (by simp)]
        rw [ih (getPatternKey p :: seen) (getPatternKey p),
          if_pos (List.mem_cons_self _ _)]
        rw [if_neg hp, List.filter_cons, if_pos (by simp)]
        rfl
      · have hne : ¬(getPatternKey p == k) = true := by
          intro hb
          exact hpk (beq_iff_eq.1 hb)
        rw [List.filter_cons, if_neg hne]
        rw [ih (getPatternKey p :: seen) k]
        have : (k ∈ getPatternKey p :: seen) ↔ k ∈ seen := by
          constructor
          · intro h
            rcases List.mem_cons.1 h with he | hs
            · exact absurd he.symm hpk
            · exact hs
          · exact List.mem_cons_of_mem _
        by_cases hk : k ∈ seen
        · rw [if_pos (this.2 hk), if_pos hk]
        · rw [if_neg (fun h => hk (this.1 h)), if_neg hk]
          rw [List.filter_cons, if_neg hne]

/-- C10: deduplicatePatterns returns a subsequence of its input (hence in
input order) whose patterns with any given canonical key are exactly the
first input pattern bearing that key, unchanged; in particular at most one
output pattern bears each key. -/
theorem deduplicatePatterns_spec (patterns : List Pattern) :
    (deduplicatePatterns patterns).Sublist patterns ∧
    ∀ k : PatternKey,
      (deduplicatePatterns patterns).filter (fun p => getPatternKey p == k) =
        (patterns.filter (fun p => getPatternKey p == k)).take 1 := by
  unfold deduplicatePatterns
  refine ⟨dedupAux_sublist patterns [], fun k => ?_⟩
  rw [dedupAux_filter patterns [] k]
  rw [if_neg (List.not_mem_nil k)]
